import Mathlib

/-!
Verification development for the msp430-rt boot runtime (src/src/lib.rs,
src/src/lang_items.rs): the reset trampoline and vector table entry, the
memory-initialization passes invoked by `reset_handler`, the call to `main`,
the idle loop, the `DEFAULT_HANDLER` and panic handlers, and the
`default_handler!` override macro.

Memory is modelled as a map from 16-bit word addresses to stored values
(`Nat → Nat`); the boot code only writes `0` or copies existing values, so no
arithmetic overflow is involved. Control flow of the straight-line handlers is
modelled as small-step machines over explicit location types, one step per
source statement.
-/

namespace Msp430Rt

/-- Machine memory: one stored value per addressable 16-bit word address. -/
def Mem : Type := Nat → Nat

/-- Modelled from the spec: the zero pass of the Memory Initializer (the
external `r0::zero_bss` routine called by `reset_handler` at lib.rs:173 —
its body is not in this repository). Starting at address `s`, it writes the
value `0` to `n` consecutive addressable units, one per loop iteration. -/
def zeroRange : Nat → Nat → Mem → Mem
  | 0, _, mem => mem
  | n + 1, s, mem => zeroRange n (s + 1) (fun a => if a = s then 0 else mem a)

/-- The zero pass over `[sbss, ebss)`, exactly as `reset_handler` invokes it:
`r0::zero_bss(&mut _sbss, &mut _ebss)` zeroes every unit in `[_sbss, _ebss)`. -/
def zero_bss (sbss ebss : Nat) (mem : Mem) : Mem :=
  zeroRange (ebss - sbss) sbss mem

/-- Modelled from the spec: the copy pass of the Memory Initializer (the
external `r0::init_data` routine called by `reset_handler` at lib.rs:174 —
its body is not in this repository). Starting at destination `d` and source
`s`, it copies `n` consecutive units one per loop iteration, reading each
source unit at the iteration that writes its destination. -/
def copyRange : Nat → Nat → Nat → Mem → Mem
  | 0, _, _, mem => mem
  | n + 1, d, s, mem =>
      copyRange n (d + 1) (s + 1) (fun a => if a = d then mem s else mem a)

/-- The copy pass, exactly as `reset_handler` invokes it:
`r0::init_data(&mut _sdata, &mut _edata, &_sidata)` copies
`_edata - _sdata` units from `_sidata` into `[_sdata, _edata)`. -/
def init_data (sdata edata sidata : Nat) (mem : Mem) : Mem :=
  copyRange (edata - sdata) sdata sidata mem

/-- The linker-supplied memory-layout symbols consumed by `reset_handler`. -/
structure Layout where
  sbss : Nat
  ebss : Nat
  sdata : Nat
  edata : Nat
  sidata : Nat

/-- The memory state produced by the memory-initialization phase of
`reset_handler` (lib.rs:173-174): the zero pass runs first, then the copy
pass runs on its result. -/
def memory_init (L : Layout) (mem : Mem) : Mem :=
  init_data L.sdata L.edata L.sidata (zero_bss L.sbss L.ebss mem)

theorem zeroRange_out (n : Nat) :
    ∀ (s : Nat) (mem : Mem) (a : Nat), a < s ∨ s + n ≤ a →
      zeroRange n s mem a = mem a := by
  induction n with
  | zero => intro s mem a _; rfl
  | succ n ih =>
      intro s mem a h
      show zeroRange n (s + 1) _ a = mem a
      rw [ih (s + 1) _ a (by omega)]
      have hne : a ≠ s := by omega
      simp [hne]

theorem zeroRange_in (n : Nat) :
    ∀ (s : Nat) (mem : Mem) (a : Nat), s ≤ a → a < s + n →
      zeroRange n s mem a = 0 := by
  induction n with
  | zero => intro s mem a h1 h2; omega
  | succ n ih =>
      intro s mem a h1 h2
      show zeroRange n (s + 1) _ a = 0
      by_cases hcase : a = s
      · rw [zeroRange_out n (s + 1) _ a (by omega)]
        simp [hcase]
      · exact ih (s + 1) _ a (by omega) (by omega)

theorem copyRange_out (n : Nat) :
    ∀ (d s : Nat) (mem : Mem) (a : Nat), a < d ∨ d + n ≤ a →
      copyRange n d s mem a = mem a := by
  induction n with
  | zero => intro d s mem a _; rfl
  | succ n ih =>
      intro d s mem a h
      show copyRange n (d + 1) (s + 1) _ a = mem a
      rw [ih (d + 1) (s + 1) _ a (by omega)]
      have hne : a ≠ d := by omega
      simp [hne]

theorem copyRange_in (n : Nat) :
    ∀ (d s : Nat) (mem : Mem),
      (∀ j, j < n → ¬(d ≤ s + j ∧ s + j < d + n)) →
      ∀ i, i < n → copyRange n d s mem (d + i) = mem (s + i) := by
  induction n with
  | zero => intro d s mem _ i hi; omega
  | succ n ih =>
      intro d s mem hdisj i hi
      show copyRange n (d + 1) (s + 1) _ (d + i) = mem (s + i)
      match i with
      | 0 =>
          rw [copyRange_out n (d + 1) (s + 1) _ (d + 0) (by omega)]
          simp
      | j + 1 =>
          have hd : d + (j + 1) = (d + 1) + j := by omega
          have hdisj' : ∀ j', j' < n →
              ¬((d + 1) ≤ (s + 1) + j' ∧ (s + 1) + j' < (d + 1) + n) := by
            intro j' hj' hcontra
            exact hdisj (j' + 1) (by omega) (by omega)
          rw [hd, ih (d + 1) (s + 1) _ hdisj' j (by omega)]
          have hne : (s + 1) + j ≠ d := by
            intro heq
            exact hdisj (j + 1) (by omega) (by omega)
          have hs : (s + 1) + j = s + (j + 1) := by omega
          simp [hne, hs]
          intro heq
          exact absurd (hs.trans heq) hne

/-! ## The reset trampoline and the reset vector (lib.rs:185-204)

The `trampoline` function is two instructions of inline assembly:
`mov #_stack_start, r1` (r1 is the MSP430 stack pointer register) followed by
`br reset_handler`. It is modelled as a machine over three locations, one step
per instruction; `atResetHandler` means control has been transferred to
`reset_handler` and is absorbing at this level of abstraction. -/

/-- Program locations of the `trampoline` machine. -/
inductive TLoc where
  | movSp
  | brReset
  | atResetHandler
  deriving DecidableEq, Repr

/-- State of the `trampoline` machine: current location and the stack pointer
register r1. -/
structure TState where
  loc : TLoc
  sp : Nat
  deriving DecidableEq, Repr

/-- One instruction of `trampoline`, parametrised by the externally supplied
`_stack_start` address: `mov #_stack_start, r1` sets the stack pointer, then
`br reset_handler` unconditionally transfers control to `reset_handler`. -/
def trampoline_step (stack_start : Nat) : TState → TState
  | ⟨.movSp, _⟩ => ⟨.brReset, stack_start⟩
  | ⟨.brReset, sp⟩ => ⟨.atResetHandler, sp⟩
  | ⟨.atResetHandler, sp⟩ => ⟨.atResetHandler, sp⟩

/-- Run `n` instructions of the `trampoline` machine. -/
def trampoline_run (stack_start : Nat) (s : TState) : Nat → TState
  | 0 => s
  | n + 1 => trampoline_step stack_start (trampoline_run stack_start s n)

/-- Possible targets a vector-table slot can resolve to. -/
inductive VectorTarget where
  | trampoline
  | defaultHandler
  | userHandler (n : Nat)
  deriving DecidableEq, Repr

/-- The `RESET_VECTOR` static (lib.rs:200-203): the reset slot of the vector
table, placed in the `.vector_table.reset_vector` section, is the address of
`trampoline`. -/
def RESET_VECTOR : VectorTarget := VectorTarget.trampoline

/-! ## The reset handler (lib.rs:172-183)

`reset_handler` executes, in order: `r0::zero_bss`, `r0::init_data`,
`main(0, ptr::null())`, then `loop {}`. It is modelled as a machine with one
location per statement, parametrised by the behaviour of the externally
linked `main`. The world visible to `main` is the memory together with the
global interrupt-enable flag (modelled from the spec: "interrupts disabled"
means this flag is cleared); `main` may change both. -/

/-- Memory plus the status-register global interrupt-enable flag. -/
structure World where
  mem : Mem
  gie : Bool

/-- Behaviour of the externally linked `main(argc, argv)`: it receives the
`argc` value, the `argv` pointer (`none` models the null pointer) and the
world, and returns the world at the moment it returns. -/
def MainFn : Type := Int → Option Nat → World → World

/-- Program locations of the `reset_handler` machine, one per statement of
lib.rs:173-182. -/
inductive RLoc where
  | doZeroBss
  | doInitData
  | doCallMain
  | inIdleLoop
  deriving DecidableEq, Repr

/-- State of the `reset_handler` machine: current location, the world, and an
instrumentation counter of how many times `main` has been invoked. -/
structure RState where
  loc : RLoc
  w : World
  mainCalls : Nat

/-- One statement of `reset_handler` (lib.rs:173-182): zero `.bss`, copy
`.data` from `_sidata`, call `main(0, null)`, then spin in `loop {}`. -/
def reset_handler_step (L : Layout) (main : MainFn) : RState → RState
  | ⟨.doZeroBss, w, k⟩ =>
      ⟨.doInitData, { w with mem := zero_bss L.sbss L.ebss w.mem }, k⟩
  | ⟨.doInitData, w, k⟩ =>
      ⟨.doCallMain, { w with mem := init_data L.sdata L.edata L.sidata w.mem }, k⟩
  | ⟨.doCallMain, w, k⟩ =>
      ⟨.inIdleLoop, main 0 none w, k + 1⟩
  | ⟨.inIdleLoop, w, k⟩ =>
      ⟨.inIdleLoop, w, k⟩

/-- Run `n` statements of the `reset_handler` machine from its entry state. -/
def reset_handler_run (L : Layout) (main : MainFn) (w : World) : Nat → RState
  | 0 => ⟨.doZeroBss, w, 0⟩
  | n + 1 => reset_handler_step L main (reset_handler_run L main w n)

/-- Closed form of the whole `reset_handler` execution: the zero pass fires at
step 1, the copy pass at step 2 on the zero pass's result, `main(0, null)` at
step 3 on the fully initialized memory, and every later step stays in the
idle loop with nothing changed. -/
theorem reset_handler_run_closed (L : Layout) (main : MainFn) (w : World) :
    ∀ n : Nat, reset_handler_run L main w n =
      if n = 0 then ⟨RLoc.doZeroBss, w, 0⟩
      else if n = 1 then
        ⟨RLoc.doInitData, { w with mem := zero_bss L.sbss L.ebss w.mem }, 0⟩
      else if n = 2 then
        ⟨RLoc.doCallMain, { w with mem := memory_init L w.mem }, 0⟩
      else
        ⟨RLoc.inIdleLoop, main 0 none { w with mem := memory_init L w.mem }, 1⟩ := by
  intro n
  induction n with
  | zero => rfl
  | succ n ih =>
      show reset_handler_step L main (reset_handler_run L main w n) = _
      rw [ih]
      match n with
      | 0 => rfl
      | 1 => rfl
      | 2 => rfl
      | m + 3 => rfl

/-! ## The boot state machine

The spec's Boot State entity is conceptual: the hardware keeps no such
variable. Its transitions are read off the code: `reset_handler` runs the
memory passes then `main` then the idle loop (lib.rs:172-183), and the panic
handler (lang_items.rs:4-13) is the only path into the halted state, entered
from within `main`. -/

/-- The spec's Boot State values. -/
inductive BootPhase where
  | reset
  | memoryInit
  | running
  | idle
  | halted
  deriving DecidableEq, Repr

/-- What the program's `main` does: return normally, or report an
unrecoverable condition (panic). -/
inductive Outcome where
  | returns
  | panics
  deriving DecidableEq, Repr

/-- The boot-phase transition, parametrised by `main`'s outcome: the
trampoline hands off to the memory passes, which hand off to `main`; a
returning `main` lands in the idle loop and a panicking one in the halted
loop; both terminal loops are absorbing. -/
def bootNext (o : Outcome) : BootPhase → BootPhase
  | .reset => .memoryInit
  | .memoryInit => .running
  | .running => match o with
      | .returns => .idle
      | .panics => .halted
  | .idle => .idle
  | .halted => .halted

/-- The boot-phase trace from hardware reset. -/
def bootRun (o : Outcome) : Nat → BootPhase
  | 0 => BootPhase.reset
  | n + 1 => bootNext o (bootRun o n)

/-! ## DEFAULT_HANDLER (lib.rs:206-213) and the panic handler
(lang_items.rs:4-13)

Both are straight-line: `interrupt::disable()` then an infinite loop (the
panic loop's body is a compiler barrier, which has no machine-visible
effect). `interrupt::disable` is an external `msp430` crate routine; modelled
from the spec, disabling interrupts clears the global interrupt-enable flag.
Each handler is a machine over three locations; `returned` models the
handler returning to its caller, and no step leads into it. -/

/-- Program locations of a disable-then-spin handler. -/
inductive HLoc where
  | disableIrq
  | spin
  | returned
  deriving DecidableEq, Repr

/-- State of a disable-then-spin handler machine. -/
structure HState where
  loc : HLoc
  gie : Bool
  deriving DecidableEq, Repr

/-- One statement of the weak `DEFAULT_HANDLER` (lib.rs:210-213):
`interrupt::disable()` clears the interrupt-enable flag, then `loop {}`
spins; nothing transitions into `returned`. -/
def DEFAULT_HANDLER_step : HState → HState
  | ⟨.disableIrq, _⟩ => ⟨.spin, false⟩
  | ⟨.spin, g⟩ => ⟨.spin, g⟩
  | ⟨.returned, g⟩ => ⟨.returned, g⟩

/-- Run `n` statements of the `DEFAULT_HANDLER` machine. -/
def DEFAULT_HANDLER_run (s : HState) : Nat → HState
  | 0 => s
  | n + 1 => DEFAULT_HANDLER_step (DEFAULT_HANDLER_run s n)

/-- One statement of the built-in panic handler (lang_items.rs:6-13):
`interrupt::disable()` clears the interrupt-enable flag, then the
barrier-bodied `loop` spins; nothing transitions into `returned`. -/
def panic_step : HState → HState
  | ⟨.disableIrq, _⟩ => ⟨.spin, false⟩
  | ⟨.spin, g⟩ => ⟨.spin, g⟩
  | ⟨.returned, g⟩ => ⟨.returned, g⟩

/-- Run `n` statements of the panic-handler machine. -/
def panic_run (s : HState) : Nat → HState
  | 0 => s
  | n + 1 => panic_step (panic_run s n)

/-! ## Link-level attributes of the two override symbols -/

/-- The link-relevant attributes a handler definition carries in the source:
whether it is emitted with weak linkage (`#[linkage = "weak"]`), whether its
very existence is gated on a Cargo feature (`#[cfg(feature = ...)]`), and how
many parameters its signature takes. -/
structure SymbolAttrs where
  weakLinkage : Bool
  featureGated : Bool
  paramCount : Nat
  deriving DecidableEq, Repr

/-- Attributes of `DEFAULT_HANDLER` (lib.rs:206-210): `#[linkage = "weak"]`,
always emitted (no `cfg` gate), signature `extern "C" fn()` with zero
parameters. -/
def DEFAULT_HANDLER_attrs : SymbolAttrs :=
  { weakLinkage := true, featureGated := false, paramCount := 0 }

/-- Attributes of the built-in panic handler (lang_items.rs:4-6): no linkage
attribute (ordinary strong definition), emitted only under
`#[cfg(feature = "abort-on-panic")]`, signature
`fn panic(_info: &PanicInfo) -> !` with one parameter. -/
def panic_attrs : SymbolAttrs :=
  { weakLinkage := false, featureGated := true, paramCount := 1 }

/-! ## The default_handler! override macro (lib.rs:238-250)

The macro expands to a strong `DEFAULT_HANDLER` whose whole body is
`let f: fn() = $body; f();` — call the user's function and fall off the end.
The body is embedded as a statement list and run by an interpreter in which
the override is a possibly-diverging world transformer (`none` = `f` never
returns). -/

/-- Statements a handler body can contain at this granularity. -/
inductive HStmt where
  | callOverride
  deriving DecidableEq, Repr

/-- The body the `default_handler!` macro generates for the strong
`DEFAULT_HANDLER`: a single call of the user-supplied function, then fall off
the end of the function (a normal return). -/
def default_handler_macro_body : List HStmt := [HStmt.callOverride]

/-- Run a handler body: the override `f` maps a world to `some` final world
when it returns, `none` when it diverges; falling off the end of the body
returns the current world. -/
def runHandlerBody (f : World → Option World) : List HStmt → World → Option World
  | [], w => some w
  | HStmt.callOverride :: rest, w =>
      match f w with
      | none => none
      | some w2 => runHandlerBody f rest w2

/-- How many calls of the override a straight-line handler body performs. -/
def overrideCallCount (body : List HStmt) : Nat :=
  body.count HStmt.callOverride

/-! ## Helper lemmas about `memory_init` -/

/-- An address of the zero region that lies outside the copy destination
reads `0` after both passes, provided the copy destination is disjoint from
the zero region (the layout contract forbids overlapping sections). -/
theorem memory_init_zeroed (L : Layout) (mem : Mem) (a : Nat)
    (h1 : L.sbss ≤ a) (h2 : a < L.ebss)
    (hdisj : ∀ x, x < L.edata → L.sdata ≤ x → ¬(L.sbss ≤ x ∧ x < L.ebss)) :
    memory_init L mem a = 0 := by
  have hbout : ¬(L.sdata ≤ a ∧ a < L.edata) := by
    intro hc
    exact hdisj a hc.2 hc.1 ⟨h1, h2⟩
  have hout : a < L.sdata ∨ L.sdata + (L.edata - L.sdata) ≤ a := by omega
  show copyRange (L.edata - L.sdata) L.sdata L.sidata _ a = 0
  rw [copyRange_out (L.edata - L.sdata) L.sdata L.sidata _ a hout]
  exact zeroRange_in (L.ebss - L.sbss) L.sbss mem a h1 (by omega)

/-- Every destination unit of the copy region reads, after both passes, the
value the source unit held just before the copy pass (the zero pass's
output), provided the ROM source range is disjoint from the copy
destination. -/
theorem memory_init_copied (L : Layout) (mem : Mem) (i : Nat)
    (hlen : L.sdata ≤ L.edata) (hi : i < L.edata - L.sdata)
    (hdisj : ∀ j, j < L.edata - L.sdata →
      ¬(L.sdata ≤ L.sidata + j ∧ L.sidata + j < L.edata)) :
    memory_init L mem (L.sdata + i) = zero_bss L.sbss L.ebss mem (L.sidata + i) := by
  show copyRange (L.edata - L.sdata) L.sdata L.sidata _ (L.sdata + i) = _
  apply copyRange_in
  · intro j hj hc
    apply hdisj j hj
    exact ⟨hc.1, by omega⟩
  · exact hi

/-- If, additionally, the ROM source range is disjoint from the zero region,
the copied value is the original ROM value. -/
theorem memory_init_copied_rom (L : Layout) (mem : Mem) (i : Nat)
    (hlen : L.sdata ≤ L.edata) (hi : i < L.edata - L.sdata)
    (hdisj : ∀ j, j < L.edata - L.sdata →
      ¬(L.sdata ≤ L.sidata + j ∧ L.sidata + j < L.edata))
    (hrom : ∀ j, j < L.edata - L.sdata →
      ¬(L.sbss ≤ L.sidata + j ∧ L.sidata + j < L.ebss)) :
    memory_init L mem (L.sdata + i) = mem (L.sidata + i) := by
  rw [memory_init_copied L mem i hlen hi hdisj]
  have hr := hrom i hi
  exact zeroRange_out (L.ebss - L.sbss) L.sbss mem (L.sidata + i) (by omega)

/-! ## Claim theorems -/

/-- C1: vector-table slot 0 (`RESET_VECTOR`) resolves to `trampoline`, whose
two instructions first set the stack pointer register to the externally
supplied `_stack_start` (after step 1 the stack pointer is already set while
control is still inside the trampoline, at the branch instruction) and then
unconditionally branch to `reset_handler` (every step from 2 on), so the
stack pointer is established before any reset-sequence code runs. -/
theorem reset_vector_trampoline_sets_sp_then_branches :
    RESET_VECTOR = VectorTarget.trampoline ∧
    ∀ (stack_start sp0 n : Nat),
      trampoline_run stack_start ⟨TLoc.movSp, sp0⟩ n =
        if n = 0 then ⟨TLoc.movSp, sp0⟩
        else if n = 1 then ⟨TLoc.brReset, stack_start⟩
        else ⟨TLoc.atResetHandler, stack_start⟩ := by
  refine ⟨rfl, ?_⟩
  intro stack_start sp0 n
  induction n with
  | zero => rfl
  | succ n ih =>
      show trampoline_step stack_start (trampoline_run stack_start ⟨TLoc.movSp, sp0⟩ n) = _
      rw [ih]
      match n with
      | 0 => rfl
      | 1 => rfl
      | m + 2 => rfl

/-- C2: every address of the zero-init region `[_sbss, _ebss)` holds `0` after
the memory-initialization phase of `reset_handler`, given the layout
contract that the `.data` destination region does not overlap the `.bss`
region. -/
theorem bss_zeroed_after_memory_init (L : Layout) (mem : Mem) (a : Nat)
    (h1 : L.sbss ≤ a) (h2 : a < L.ebss)
    (hdisj : ∀ x, x < L.edata → L.sdata ≤ x → ¬(L.sbss ≤ x ∧ x < L.ebss)) :
    memory_init L mem a = 0 :=
  memory_init_zeroed L mem a h1 h2 hdisj

/-- Witness for C2 on the spec's end-to-end layout shape: zero region
`[2, 4)`, data region `[4, 6)` sourced from `10`, non-zero initial memory. -/
theorem bss_zeroed_after_memory_init_witness :
    memory_init ⟨2, 4, 4, 6, 10⟩ (fun a => a + 1) 2 = 0 :=
  bss_zeroed_after_memory_init ⟨2, 4, 4, 6, 10⟩ (fun a => a + 1) 2
    (by decide) (by decide) (by decide)

/-- C3: every offset `i` of the pre-init region reads, after the
memory-initialization phase of `reset_handler`, the value the ROM source
unit `_sidata + i` held just before the copy pass, given the layout contract
that the ROM source range does not overlap the RAM destination range. -/
theorem data_copied_after_memory_init (L : Layout) (mem : Mem) (i : Nat)
    (hlen : L.sdata ≤ L.edata) (hi : i < L.edata - L.sdata)
    (hdisj : ∀ j, j < L.edata - L.sdata →
      ¬(L.sdata ≤ L.sidata + j ∧ L.sidata + j < L.edata)) :
    memory_init L mem (L.sdata + i) = zero_bss L.sbss L.ebss mem (L.sidata + i) :=
  memory_init_copied L mem i hlen hi hdisj

/-- Witness for C3: zero region `[2, 4)`, data region `[4, 6)` sourced from
`10`, offset `0`. -/
theorem data_copied_after_memory_init_witness :
    memory_init ⟨2, 4, 4, 6, 10⟩ (fun a => a + 1) (4 + 0) =
      zero_bss 2 4 (fun a => a + 1) (10 + 0) :=
  data_copied_after_memory_init ⟨2, 4, 4, 6, 10⟩ (fun a => a + 1) 0
    (by decide) (by decide) (by decide)

/-- C4: `reset_handler` runs the zero pass strictly before the copy pass,
each exactly once and unconditionally (steps 1 and 2 of the machine), and on
any address lying both in the zero region and in the copy destination the
final value is the copied ROM value — in particular non-zero whenever the
ROM value is non-zero. The disjointness hypotheses are the layout contract
for the ROM source (read-only storage does not overlap either writable
region). -/
theorem zero_before_copy_overlap_copy_wins (L : Layout) (main : MainFn)
    (w : World) (mem : Mem) (i : Nat) :
    (reset_handler_run L main w 1 =
        ⟨RLoc.doInitData, { w with mem := zero_bss L.sbss L.ebss w.mem }, 0⟩ ∧
      reset_handler_run L main w 2 =
        ⟨RLoc.doCallMain,
          { w with mem := init_data L.sdata L.edata L.sidata (zero_bss L.sbss L.ebss w.mem) },
          0⟩) ∧
    (L.sdata ≤ L.edata → i < L.edata - L.sdata →
      L.sbss ≤ L.sdata + i → L.sdata + i < L.ebss →
      (∀ j, j < L.edata - L.sdata →
        ¬(L.sdata ≤ L.sidata + j ∧ L.sidata + j < L.edata)) →
      (∀ j, j < L.edata - L.sdata →
        ¬(L.sbss ≤ L.sidata + j ∧ L.sidata + j < L.ebss)) →
      memory_init L mem (L.sdata + i) = mem (L.sidata + i) ∧
      (mem (L.sidata + i) ≠ 0 → memory_init L mem (L.sdata + i) ≠ 0)) := by
  refine ⟨⟨rfl, rfl⟩, ?_⟩
  intro hlen hi _ _ hdisj hrom
  have hcopy := memory_init_copied_rom L mem i hlen hi hdisj hrom
  exact ⟨hcopy, fun hnz => hcopy ▸ hnz⟩

/-- Witness for C4: zero region `[0, 4)`, data region `[2, 4)` inside it,
sourced from ROM address `10` where memory holds `11 ≠ 0`; the final value
at the overlap address `2` is the copied `11`, not `0`. -/
theorem zero_before_copy_overlap_copy_wins_witness :
    memory_init ⟨0, 4, 2, 4, 10⟩ (fun a => a + 1) (2 + 0) =
      (fun a => a + 1) (10 + 0) ∧
    memory_init ⟨0, 4, 2, 4, 10⟩ (fun a => a + 1) (2 + 0) ≠ 0 := by
  have h := (zero_before_copy_overlap_copy_wins ⟨0, 4, 2, 4, 10⟩
      (fun _ _ w => w) ⟨fun a => a + 1, true⟩ (fun a => a + 1) 0).2
      (by decide) (by decide) (by decide) (by decide) (by decide) (by decide)
  exact ⟨h.1, h.2 (by decide)⟩

/-- C5: `reset_handler` calls `main` exactly once — the call counter is `0`
before step 3 and `1` from step 3 on, forever — and the call happens at step
3, strictly after both memory passes, on the fully initialized memory, with
the stub arguments `argc = 0` and `argv = null`. -/
theorem main_called_once_after_init_with_stub_args (L : Layout) (main : MainFn)
    (w : World) :
    (∀ n : Nat, (reset_handler_run L main w n).mainCalls =
      if 3 ≤ n then 1 else 0) ∧
    reset_handler_run L main w 3 =
      ⟨RLoc.inIdleLoop, main 0 none { w with mem := memory_init L w.mem }, 1⟩ := by
  constructor
  · intro n
    rw [reset_handler_run_closed]
    match n with
    | 0 => rfl
    | 1 => rfl
    | 2 => rfl
    | m + 3 =>
        rw [if_neg (by omega), if_neg (by omega), if_neg (by omega),
          if_pos (by omega)]
  · rfl

/-- C6: once `main` has returned (step 3 of the machine), every further step
leaves the state completely unchanged: control stays in the `loop {}` idle
location forever, `main` is never invoked again (the call counter stays at
`1`), and the interrupt-enable flag keeps whatever value `main` left it
with. -/
theorem idle_loop_absorbing (L : Layout) (main : MainFn) (w : World) (k : Nat) :
    reset_handler_run L main w (3 + k) = reset_handler_run L main w 3 ∧
    (reset_handler_run L main w (3 + k)).loc = RLoc.inIdleLoop ∧
    (reset_handler_run L main w (3 + k)).w.gie =
      (main 0 none { w with mem := memory_init L w.mem }).gie ∧
    (reset_handler_run L main w (3 + k)).mainCalls = 1 := by
  have h1 : reset_handler_run L main w (3 + k) =
      ⟨RLoc.inIdleLoop, main 0 none { w with mem := memory_init L w.mem }, 1⟩ := by
    rw [reset_handler_run_closed]
    rw [if_neg (by omega), if_neg (by omega), if_neg (by omega)]
  rw [h1]
  exact ⟨rfl, rfl, rfl, rfl⟩

/-- C7: the weak `DEFAULT_HANDLER`, run from its entry with any
interrupt-enable state, has after its first statement cleared the
interrupt-enable flag, and every subsequent step stays in the spin location
with interrupts still disabled — in particular the `returned` location is
never reached. -/
theorem DEFAULT_HANDLER_disables_then_spins :
    ∀ (g : Bool) (n : Nat),
      DEFAULT_HANDLER_run ⟨HLoc.disableIrq, g⟩ n =
        if n = 0 then ⟨HLoc.disableIrq, g⟩ else ⟨HLoc.spin, false⟩ := by
  intro g n
  induction n with
  | zero => rfl
  | succ n ih =>
      show DEFAULT_HANDLER_step (DEFAULT_HANDLER_run ⟨HLoc.disableIrq, g⟩ n) = _
      rw [ih]
      match n with
      | 0 => rfl
      | m + 1 => rfl

/-- C8 counterexample: the built-in panic handler is not bound by the same
zero-argument weak-binding contract as `DEFAULT_HANDLER` — it carries no
weak linkage attribute and takes one parameter (the panic-info argument),
whereas `DEFAULT_HANDLER` is weak and zero-argument. -/
theorem panic_override_not_weak_binding :
    ¬(panic_attrs.weakLinkage = DEFAULT_HANDLER_attrs.weakLinkage ∧
      panic_attrs.paramCount = DEFAULT_HANDLER_attrs.paramCount) := by
  decide

/-- C8 (amended): the built-in panic handler disables interrupts with its
first statement and then spins forever with interrupts still disabled, never
reaching the `returned` location and never re-enabling interrupts; but its
substitution contract differs from `DEFAULT_HANDLER`'s weak binding: the
handler is an ordinary (strong) definition emitted only under the
`abort-on-panic` feature, takes the one panic-info parameter, and is
replaced by omitting the feature and linking the embedder's own panic
symbol. -/
theorem panic_disables_then_spins_feature_gated :
    (∀ (g : Bool) (n : Nat),
      panic_run ⟨HLoc.disableIrq, g⟩ n =
        if n = 0 then ⟨HLoc.disableIrq, g⟩ else ⟨HLoc.spin, false⟩) ∧
    panic_attrs = { weakLinkage := false, featureGated := true, paramCount := 1 } ∧
    DEFAULT_HANDLER_attrs =
      { weakLinkage := true, featureGated := false, paramCount := 0 } := by
  refine ⟨?_, rfl, rfl⟩
  intro g n
  induction n with
  | zero => rfl
  | succ n ih =>
      show panic_step (panic_run ⟨HLoc.disableIrq, g⟩ n) = _
      rw [ih]
      match n with
      | 0 => rfl
      | m + 1 => rfl

/-- C9: the boot state machine is monotonic — the trace from hardware reset
is `Reset` at step 0, `MemoryInit` at step 1, `Running` at step 2, and from
step 3 on forever exactly one of `Idle` (when `main` returns) or `Halted`
(when `main` panics); each non-terminal state occupies exactly one step, so
no state is revisited and no state is skipped. -/
theorem boot_phases_monotonic :
    ∀ (o : Outcome) (n : Nat),
      bootRun o n =
        if n = 0 then BootPhase.reset
        else if n = 1 then BootPhase.memoryInit
        else if n = 2 then BootPhase.running
        else match o with
          | Outcome.returns => BootPhase.idle
          | Outcome.panics => BootPhase.halted := by
  intro o n
  induction n with
  | zero => rfl
  | succ n ih =>
      show bootNext o (bootRun o n) = _
      rw [ih]
      match n with
      | 0 => rfl
      | 1 => rfl
      | 2 => cases o <;> rfl
      | m + 3 => cases o <;> rfl

/-- C10: the strong `DEFAULT_HANDLER` generated by the `default_handler!`
macro contains exactly one call of the supplied function `f`, and its result
is exactly `f`'s: it returns normally precisely when `f` returns (and
diverges precisely when `f` does) — the override mechanism itself enforces
no no-return property. -/
theorem default_handler_macro_calls_once_and_returns :
    overrideCallCount default_handler_macro_body = 1 ∧
    ∀ (f : World → Option World) (w : World),
      runHandlerBody f default_handler_macro_body w = f w := by
  refine ⟨rfl, ?_⟩
  intro f w
  cases hf : f w with
  | none => simp [runHandlerBody, default_handler_macro_body, hf]
  | some w2 => simp [runHandlerBody, default_handler_macro_body, hf]

end Msp430Rt
